import Mathlib

/-!
Verification of `examples/wav2vec/unsupervised/scripts/wav2vec_extract_features.py`.

The script reads a TSV manifest (`get_iterator`), copies auxiliary files and
prepares the output array (`create_files`), and then, for each audio file,
writes the embedding's row count to a `.lengths` text file and appends the
rows to a growable `.npy` array (`main`'s loop).  The neural embedding itself
is an external black box; it is modelled as an opaque function producing a
matrix (a list of rows).

Strings are modelled as `List Char` so that every operation is a plain
structural recursion that the kernel can evaluate.
-/

namespace Wav2VecFeatures

/-- Model of a Python string: its list of characters. -/
abbrev Str := List Char

/-- A row of a feature matrix (the hidden-dimension vector). -/
abbrev Row := List Int

/-- A 2-D feature matrix, represented as its list of rows; the row count is
the Python `len(matrix)`. -/
abbrev Matrix := List Row

/-- Convert a Lean string literal into the model representation. -/
def str (s : String) : Str := s.data

/-- The default whitespace set of Python's `str.strip()` (ASCII part). -/
def isPySpace (c : Char) : Bool :=
  c = ' ' || c = '\t' || c = '\n' || c = '\r' || c = '\x0b' || c = '\x0c'

/-- Python `s.strip()`: remove leading and trailing whitespace. -/
def pyStrip (s : Str) : Str :=
  ((s.dropWhile isPySpace).reverse.dropWhile isPySpace).reverse

/-- Python `s.split(sep)` for a single-character separator `sep`: every
occurrence of the separator starts a new field, fields may be empty, and the
result is never the empty list (`"".split(sep) == [""]`). -/
def splitOnChar (c : Char) : Str → List Str
  | [] => [[]]
  | x :: xs =>
    if x = c then [] :: splitOnChar c xs
    else
      match splitOnChar c xs with
      | y :: ys => (x :: y) :: ys
      | [] => [[x]]

/-- Python `os.path.join(a, b)` (POSIX, two arguments): an absolute second
component replaces the first; otherwise a `/` separator is inserted unless the
first component is empty or already ends in `/`. -/
def pyJoin (a b : Str) : Str :=
  if b.head? = some '/' then b
  else if a = [] ∨ a.getLast? = some '/' then a ++ b
  else a ++ '/' :: b

/-- The manifest parsing of `get_iterator` (source lines 84–98):
`lines = fp.read().split("\n")`, `root = lines.pop(0).strip()`,
`files = [osp.join(root, line.split("\t")[0]) for line in lines if len(line) > 0]`,
`num = len(files)`.  Returns the ordered path list and its count. -/
def resolveManifest (content : Str) : List Str × Nat :=
  let lines := splitOnChar '\n' content
  let root := pyStrip (lines.headD [])
  let files := (lines.tail.filter (fun l => 0 < l.length)).map
    (fun l => pyJoin root ((splitOnChar '\t' l).headD []))
  (files, files.length)

/-! ### The Feature Writer loop (`main`, source lines 125–130)

```
with open(save_path + ".lengths", "w") as l_f:
    for w2v_feats in tqdm.tqdm(iterator, total=num):
        print(len(w2v_feats), file=l_f)
        if len(w2v_feats) > 0:
            npaa.append(w2v_feats.numpy())
```

`WState` is the joint content of the two output resources: the list of
integers printed to the Lengths Manifest and the rows so far appended to the
Feature Array. -/

/-- The content of the two output resources of the writer loop. -/
structure WState where
  lengths : List Nat
  array : List Row
deriving DecidableEq

/-- One iteration of the loop body: print the row count, then append the
rows only when the count is positive. -/
def writeOne (st : WState) (m : Matrix) : WState :=
  let st := { st with lengths := st.lengths ++ [m.length] }
  if 0 < m.length then { st with array := st.array ++ m } else st

/-- The whole loop, over the matrices in input order, starting from the
freshly opened (truncated) Lengths Manifest and the fresh Feature Array. -/
def runWriter (ms : List Matrix) : WState :=
  ms.foldl writeOne ⟨[], []⟩

/-- Cumulative slicing of a flat row list by a list of segment lengths: the
reconstruction procedure the Lengths Manifest exists to support. -/
def cumSlice : List Nat → List Row → List Matrix
  | [], _ => []
  | n :: rest, arr => arr.take n :: cumSlice rest (arr.drop n)

theorem foldl_writeOne (st : WState) (ms : List Matrix) :
    (ms.foldl writeOne st).lengths = st.lengths ++ ms.map List.length ∧
    (ms.foldl writeOne st).array = st.array ++ ms.flatten := by
  induction ms generalizing st with
  | nil => simp
  | cons m rest ih =>
    have step : (writeOne st m).lengths = st.lengths ++ [m.length] ∧
        (writeOne st m).array = st.array ++ m := by
      unfold writeOne
      by_cases h : 0 < m.length
      · simp [h]
      · have hm : m = [] := List.length_eq_zero.mp (Nat.eq_zero_of_not_pos h)
        simp [h, hm]
    rcases ih (writeOne st m) with ⟨ih1, ih2⟩
    refine ⟨?_, ?_⟩
    · simp [List.foldl_cons, ih1, step.1]
    · simp [List.foldl_cons, ih2, step.2]

theorem runWriter_lengths (ms : List Matrix) :
    (runWriter ms).lengths = ms.map List.length :=
  by simpa using (foldl_writeOne ⟨[], []⟩ ms).1

theorem runWriter_array (ms : List Matrix) :
    (runWriter ms).array = ms.flatten :=
  by simpa using (foldl_writeOne ⟨[], []⟩ ms).2

theorem flatten_filter_pos (ms : List Matrix) :
    ((ms.filter (fun m => 0 < m.length)).flatten) = ms.flatten := by
  induction ms with
  | nil => rfl
  | cons m rest ih =>
    by_cases h : 0 < m.length
    · simp [List.filter_cons, h, ih]
    · have hm : m = [] := List.length_eq_zero.mp (Nat.eq_zero_of_not_pos h)
      simp [List.filter_cons, h, hm, ih]

theorem sum_filter_pos (l : List Nat) :
    (l.filter (fun n => 0 < n)).sum = l.sum := by
  induction l with
  | nil => rfl
  | cons n rest ih =>
    by_cases h : 0 < n
    · simp [List.filter_cons, h, ih]
    · have : n = 0 := Nat.eq_zero_of_not_pos h
      simp [List.filter_cons, h, this, ih]

theorem cumSlice_flatten (ms : List Matrix) :
    cumSlice (ms.map List.length) ms.flatten = ms := by
  induction ms with
  | nil => rfl
  | cons m rest ih =>
    simp only [List.map_cons, List.flatten_cons, cumSlice]
    rw [List.take_left m rest.flatten, List.drop_left m rest.flatten, ih]

/-- C1: per processed file, the Feature Writer writes the row count as a
line to the Lengths Manifest, and appends the rows to the Feature Array only
when the row count is positive; a zero-row matrix contributes a `0` line and
no rows.  The concrete scenario: shapes (5, 768) and (0, 768) yield lengths
lines `5` then `0` and exactly 5 array rows. -/
theorem claim_C1_writer_step (st : WState) (m : Matrix) :
    (writeOne st m).lengths = st.lengths ++ [m.length] ∧
    (0 < m.length → (writeOne st m).array = st.array ++ m) ∧
    (m.length = 0 → (writeOne st m).array = st.array) ∧
    runWriter [List.replicate 5 (List.replicate 768 (0 : Int)),
               (List.replicate 0 (List.replicate 768 (0 : Int)))] =
      ⟨[5, 0], List.replicate 5 (List.replicate 768 (0 : Int))⟩ := by
  refine ⟨?_, ?_, ?_, ?_⟩
  · unfold writeOne
    by_cases h : 0 < m.length <;> simp [h]
  · intro h; unfold writeOne; simp [h]
  · intro h
    have hm : m = [] := List.length_eq_zero.mp h
    unfold writeOne; simp [hm]
  · rfl

theorem claim_C1_writer_step_witness :
    (writeOne ⟨[7], [[1]]⟩ [[2], [3]]).array = [[1]] ++ [[2], [3]] :=
  (claim_C1_writer_step ⟨[7], [[1]]⟩ [[2], [3]]).2.1 (by decide)

/-- C2: at every point during and after a run (i.e. after any prefix of the
input), the Feature Array is the concatenation, in input order, of the
non-empty matrices produced so far; its row count is the sum of the Lengths
Manifest values, which equals the sum of the non-zero values; and cumulative
slicing by the manifest reconstructs every per-file segment. -/
theorem claim_C2_array_invariant (ms : List Matrix) (k : Nat) :
    (runWriter (ms.take k)).array =
      (((ms.take k).filter (fun m => 0 < m.length)).flatten) ∧
    (runWriter (ms.take k)).array.length = (runWriter (ms.take k)).lengths.sum ∧
    (runWriter (ms.take k)).lengths.sum =
      ((runWriter (ms.take k)).lengths.filter (fun n => 0 < n)).sum ∧
    cumSlice (runWriter (ms.take k)).lengths (runWriter (ms.take k)).array =
      ms.take k := by
  refine ⟨?_, ?_, ?_, ?_⟩
  · rw [runWriter_array, flatten_filter_pos]
  · rw [runWriter_array, runWriter_lengths]
    induction (ms.take k) with
    | nil => rfl
    | cons m rest ih => simp [ih]
  · rw [runWriter_lengths, sum_filter_pos]
  · rw [runWriter_array, runWriter_lengths, cumSlice_flatten]

/-! ### Manifest Resolver claims -/

theorem splitOnChar_of_not_mem (c : Char) (s : Str) (h : c ∉ s) :
    splitOnChar c s = [s] := by
  induction s with
  | nil => rfl
  | cons x xs ih =>
    have hx : ¬ x = c := fun he => h (he ▸ List.mem_cons_self x xs)
    have hxs : c ∉ xs := fun hm => h (List.mem_cons_of_mem x hm)
    simp only [splitOnChar, if_neg hx, ih hxs]

theorem splitOnChar_append_cons (c : Char) (a b : Str)
    (ha : c ∉ a) (hb : c ∉ b) :
    splitOnChar c (a ++ c :: b) = [a, b] := by
  induction a with
  | nil => simp [splitOnChar, splitOnChar_of_not_mem c b hb]
  | cons x xs ih =>
    have hx : ¬ x = c := fun he => ha (he ▸ List.mem_cons_self x xs)
    have hxs : c ∉ xs := fun hm => ha (List.mem_cons_of_mem x hm)
    simp only [List.cons_append, splitOnChar, if_neg hx]
    simp only [List.append_eq]
    rw [ih hxs]

/-- C3: the resolver takes the first line as root and, for every subsequent
non-empty line, joins the line's first tab-delimited field with that root;
it returns the ordered path list together with its count. -/
theorem claim_C3_resolver (content root : Str) (rest : List Str)
    (h : splitOnChar '\n' content = root :: rest) :
    (resolveManifest content).1 =
      (rest.filter (fun l => 0 < l.length)).map
        (fun l => pyJoin (pyStrip root) ((splitOnChar '\t' l).headD [])) ∧
    (resolveManifest content).2 = (resolveManifest content).1.length ∧
    resolveManifest (str "/data\na.wav\tfoo\nb.wav\tbar") =
      ([str "/data/a.wav", str "/data/b.wav"], 2) := by
  refine ⟨?_, ?_, ?_⟩
  · simp [resolveManifest, h]
  · rfl
  · rfl

theorem claim_C3_resolver_witness :
    resolveManifest (str "/data\na.wav\tfoo\nb.wav\tbar") =
      ([str "/data/a.wav", str "/data/b.wav"], 2) :=
  (claim_C3_resolver (str "/data\na.wav\tfoo\nb.wav\tbar") (str "/data")
      [str "a.wav\tfoo", str "b.wav\tbar"] (by decide)).2.2

/-- C9: a non-empty manifest line with no tab character is not rejected:
`line.split("\t")[0]` is the whole line, so the resolver yields the root
joined with the entire line. -/
theorem claim_C9_tabless_line (root line : Str)
    (hr : '\n' ∉ root) (hl : '\n' ∉ line) (hne : line ≠ []) (ht : '\t' ∉ line) :
    (splitOnChar '\t' line).headD [] = line ∧
    resolveManifest (root ++ '\n' :: line) = ([pyJoin (pyStrip root) line], 1) := by
  have hsplit : splitOnChar '\n' (root ++ '\n' :: line) = [root, line] :=
    splitOnChar_append_cons '\n' root line hr hl
  have hsp : splitOnChar '\t' line = [line] := splitOnChar_of_not_mem '\t' line ht
  have hpos : 0 < line.length := List.length_pos.mpr hne
  refine ⟨by rw [hsp]; rfl, ?_⟩
  simp [resolveManifest, hsplit, hpos, hsp]

theorem claim_C9_tabless_line_witness :
    resolveManifest (str "/data" ++ '\n' :: str "a.wav") =
      ([pyJoin (pyStrip (str "/data")) (str "a.wav")], 1) :=
  (claim_C9_tabless_line (str "/data") (str "a.wav")
      (by decide) (by decide) (by decide) (by decide)).2

/-! ### Filesystem-level model of `create_files` and `main`

The filesystem is an association list from paths to file contents.  A
`.lengths` file is modelled by the list of integers printed to it, a `.npy`
file by its list of rows, every other file by its text. -/

/-- Content of a file in the model filesystem. -/
inductive FileData where
  | npyF (rows : List Row)
  | textF (s : Str)
  | lensF (vals : List Nat)
deriving DecidableEq

/-- A filesystem: an association list from paths to contents (first binding
for a path wins). -/
abbrev FS := List (Str × FileData)

def lookupFS : FS → Str → Option FileData
  | [], _ => none
  | (q, d) :: rest, p => if q = p then some d else lookupFS rest p

/-- `os.remove`: drop every binding of the path. -/
def removeFS : FS → Str → FS
  | [], _ => []
  | (q, d) :: rest, p =>
    if q = p then removeFS rest p else (q, d) :: removeFS rest p

/-- Writing a file: the new binding replaces any previous one. -/
def setFS (fs : FS) (p : Str) (d : FileData) : FS :=
  (p, d) :: removeFS fs p

/-- `os.path.exists`. -/
def fsExists (fs : FS) (p : Str) : Bool :=
  (lookupFS fs p).isSome

/-- `shutil.copyfile(src, dst)`: `SameFileError` when the two paths are the
same file, `FileNotFoundError` when the source is missing, otherwise the
destination gets the source's content. -/
def copyfile (fs : FS) (src dst : Str) : Except String FS :=
  if src = dst then .error "SameFileError"
  else
    match lookupFS fs src with
    | none => .error "FileNotFoundError"
    | some d => .ok (setFS fs dst d)

/-- `create_files(dest)` (source lines 107–118): copy `<split>.tsv`
unconditionally, copy `<split>.wrd` and `<split>.phn` only when they exist,
delete any pre-existing `dest.npy`, and hand back the (lazily created)
append-array handle — in the model, the updated filesystem. -/
def create_files (fs : FS) (data split dest : Str) : Except String FS := do
  let srcBase := pyJoin data split
  let fs1 ← copyfile fs (srcBase ++ str ".tsv") (dest ++ str ".tsv")
  let fs2 ← if fsExists fs1 (srcBase ++ str ".wrd") then
              copyfile fs1 (srcBase ++ str ".wrd") (dest ++ str ".wrd")
            else pure fs1
  let fs3 ← if fsExists fs2 (srcBase ++ str ".phn") then
              copyfile fs2 (srcBase ++ str ".phn") (dest ++ str ".phn")
            else pure fs2
  pure (if fsExists fs3 (dest ++ str ".npy") then
          removeFS fs3 (dest ++ str ".npy")
        else fs3)

/-- The rows currently stored in the on-disk Feature Array at `p`: empty when
the file does not exist (the append-array library creates it on the first
append). -/
def npyRows (fs : FS) (p : Str) : List Row :=
  match lookupFS fs p with
  | some (FileData.npyF r) => r
  | _ => []

/-- `npaa.append(matrix)`: append the rows to the array file, creating it if
absent. -/
def npyAppend (fs : FS) (p : Str) (m : Matrix) : FS :=
  setFS fs p (FileData.npyF (npyRows fs p ++ m))

/-- The integers printed so far to the `.lengths` file at `p`. -/
def lensVals (fs : FS) (p : Str) : List Nat :=
  match lookupFS fs p with
  | some (FileData.lensF v) => v
  | _ => []

/-- `print(len(feats), file=l_f)`: append one integer line. -/
def appendLen (fs : FS) (p : Str) (n : Nat) : FS :=
  setFS fs p (FileData.lensF (lensVals fs p ++ [n]))

/-- One iteration of `main`'s loop, at the filesystem level. -/
def fsWriteStep (dest : Str) (fs : FS) (m : Matrix) : FS :=
  let fs := appendLen fs (dest ++ str ".lengths") m.length
  if 0 < m.length then npyAppend fs (dest ++ str ".npy") m else fs

/-- `main` (source lines 100–130), for a run in which every embedding call
succeeds: `create_files`, then `get_iterator` reads the manifest from the
data directory, then the loop writes one length line per file and appends
the non-empty matrices.  Opening the `.lengths` file with mode `"w"`
truncates it. -/
def extractRun (fs : FS) (data split saveDir : Str)
    (embed : Str → Matrix) : Except String FS := do
  let dest := pyJoin saveDir split
  let fs1 ← create_files fs data split dest
  let content ← (match lookupFS fs1 (pyJoin data split ++ str ".tsv") with
    | some (FileData.textF c) => Except.ok c
    | _ => Except.error "FileNotFoundError")
  let files := (resolveManifest content).1
  let fs2 := setFS fs1 (dest ++ str ".lengths") (FileData.lensF [])
  pure (files.foldl (fun a f => fsWriteStep dest a (embed f)) fs2)

theorem lookupFS_removeFS (fs : FS) (p q : Str) :
    lookupFS (removeFS fs p) q = if p = q then none else lookupFS fs q := by
  induction fs with
  | nil => simp only [removeFS, lookupFS]; exact (ite_self _).symm
  | cons e rest ih =>
    obtain ⟨r, d⟩ := e
    by_cases hrp : r = p
    · subst hrp
      by_cases hpq : r = q
      · subst hpq; simp [removeFS, lookupFS, ih]
      · simp [removeFS, lookupFS, hpq, ih]
    · by_cases hrq : r = q
      · subst hrq
        have hpq : ¬ p = r := fun he => hrp he.symm
        simp [removeFS, lookupFS, hrp, hpq]
      · simp [removeFS, lookupFS, hrp, hrq, ih]

theorem lookupFS_setFS (fs : FS) (p q : Str) (d : FileData) :
    lookupFS (setFS fs p d) q = if p = q then some d else lookupFS fs q := by
  have h0 : lookupFS (setFS fs p d) q =
      if p = q then some d else lookupFS (removeFS fs p) q := rfl
  rw [h0, lookupFS_removeFS]
  by_cases h : p = q <;> simp [h]

theorem lookupFS_setFS_ne (fs : FS) (p q : Str) (d : FileData) (h : ¬ p = q) :
    lookupFS (setFS fs p d) q = lookupFS fs q := by
  rw [lookupFS_setFS, if_neg h]

theorem lookupFS_setFS_eq (fs : FS) (p : Str) (d : FileData) :
    lookupFS (setFS fs p d) p = some d := by
  rw [lookupFS_setFS, if_pos rfl]

/-- Deleting the file at `p` iff it exists leaves no file at `p`. -/
theorem lookupFS_removeIfExists (fs : FS) (p : Str) :
    lookupFS (if fsExists fs p then removeFS fs p else fs) p = none := by
  by_cases h : fsExists fs p
  · rw [if_pos h, lookupFS_removeFS, if_pos rfl]
  · rw [if_neg h]
    unfold fsExists at h
    cases hl : lookupFS fs p with
    | none => rfl
    | some d => rw [hl] at h; simp at h

theorem lookupFS_removeIfExists_ne (fs : FS) (p q : Str) (h : ¬ p = q) :
    lookupFS (if fsExists fs p then removeFS fs p else fs) q = lookupFS fs q := by
  by_cases hc : fsExists fs p
  · rw [if_pos hc, lookupFS_removeFS, if_neg h]
  · rw [if_neg hc]

/-- Two paths with the same suffix differ when their stems differ. -/
theorem stemNe (a b s : Str) (h : a ≠ b) : a ++ s ≠ b ++ s :=
  fun he => h (List.append_cancel_right he)

/-- Two paths whose (non-empty) suffixes end in different characters differ. -/
theorem extNe (a b : Str) (s t : String)
    (hs : s.data ≠ []) (ht : t.data ≠ [])
    (h : s.data.getLast? ≠ t.data.getLast?) : a ++ str s ≠ b ++ str t := by
  intro he
  apply h
  have h2 : (a ++ s.data).getLast? = (b ++ t.data).getLast? :=
    congrArg List.getLast? he
  rwa [List.getLast?_append_of_ne_nil a hs, List.getLast?_append_of_ne_nil b ht]
    at h2

theorem copyfile_ok (fs : FS) (src dst : Str) (d : FileData)
    (h1 : src ≠ dst) (h2 : lookupFS fs src = some d) :
    copyfile fs src dst = .ok (setFS fs dst d) := by
  unfold copyfile
  rw [if_neg h1, h2]

theorem exceptBindOk {ε α β : Type} (a : α) (f : α → Except ε β) :
    (Except.ok a : Except ε α) >>= f = f a := rfl

theorem exceptPure {ε α : Type} (a : α) :
    (pure a : Except ε α) = Except.ok a := rfl

/-- Full characterization of a successful `create_files` call: it succeeds
whenever the source manifest exists and the data and output stems differ,
the destination `.npy` is absent afterwards, the source manifest is intact,
its copy is at the destination, and each auxiliary file is copied exactly
when it exists at the source. -/
theorem create_files_spec (fs : FS) (data split dest : Str) (dT : FileData)
    (hsrc : lookupFS fs (pyJoin data split ++ str ".tsv") = some dT)
    (hne : pyJoin data split ≠ dest) :
    ∃ fs', create_files fs data split dest = .ok fs' ∧
      lookupFS fs' (dest ++ str ".npy") = none ∧
      lookupFS fs' (pyJoin data split ++ str ".tsv") = some dT ∧
      lookupFS fs' (dest ++ str ".tsv") = some dT ∧
      (∀ dW, lookupFS fs (pyJoin data split ++ str ".wrd") = some dW →
        lookupFS fs' (dest ++ str ".wrd") = some dW) ∧
      (lookupFS fs (pyJoin data split ++ str ".wrd") = none →
        lookupFS fs' (dest ++ str ".wrd") = lookupFS fs (dest ++ str ".wrd")) ∧
      (∀ dP, lookupFS fs (pyJoin data split ++ str ".phn") = some dP →
        lookupFS fs' (dest ++ str ".phn") = some dP) ∧
      (lookupFS fs (pyJoin data split ++ str ".phn") = none →
        lookupFS fs' (dest ++ str ".phn") = lookupFS fs (dest ++ str ".phn")) := by
  set B := pyJoin data split with hB
  have neT : B ++ str ".tsv" ≠ dest ++ str ".tsv" := stemNe _ _ _ hne
  have neW : B ++ str ".wrd" ≠ dest ++ str ".wrd" := stemNe _ _ _ hne
  have neP : B ++ str ".phn" ≠ dest ++ str ".phn" := stemNe _ _ _ hne
  have nTsT : ¬ dest ++ str ".tsv" = B ++ str ".tsv" := fun h => neT h.symm
  have nTsW : ¬ dest ++ str ".tsv" = B ++ str ".wrd" :=
    extNe dest B ".tsv" ".wrd" (by decide) (by decide) (by decide)
  have nTsP : ¬ dest ++ str ".tsv" = B ++ str ".phn" :=
    extNe dest B ".tsv" ".phn" (by decide) (by decide) (by decide)
  have nWsP : ¬ dest ++ str ".wrd" = B ++ str ".phn" :=
    extNe dest B ".wrd" ".phn" (by decide) (by decide) (by decide)
  have nWsT : ¬ dest ++ str ".wrd" = B ++ str ".tsv" :=
    extNe dest B ".wrd" ".tsv" (by decide) (by decide) (by decide)
  have nPsT : ¬ dest ++ str ".phn" = B ++ str ".tsv" :=
    extNe dest B ".phn" ".tsv" (by decide) (by decide) (by decide)
  have nNsT : ¬ dest ++ str ".npy" = B ++ str ".tsv" :=
    extNe dest B ".npy" ".tsv" (by decide) (by decide) (by decide)
  have nWT : ¬ dest ++ str ".wrd" = dest ++ str ".tsv" :=
    extNe dest dest ".wrd" ".tsv" (by decide) (by decide) (by decide)
  have nPT : ¬ dest ++ str ".phn" = dest ++ str ".tsv" :=
    extNe dest dest ".phn" ".tsv" (by decide) (by decide) (by decide)
  have nNT : ¬ dest ++ str ".npy" = dest ++ str ".tsv" :=
    extNe dest dest ".npy" ".tsv" (by decide) (by decide) (by decide)
  have nTW : ¬ dest ++ str ".tsv" = dest ++ str ".wrd" :=
    extNe dest dest ".tsv" ".wrd" (by decide) (by decide) (by decide)
  have nPW : ¬ dest ++ str ".phn" = dest ++ str ".wrd" :=
    extNe dest dest ".phn" ".wrd" (by decide) (by decide) (by decide)
  have nNW : ¬ dest ++ str ".npy" = dest ++ str ".wrd" :=
    extNe dest dest ".npy" ".wrd" (by decide) (by decide) (by decide)
  have nTP : ¬ dest ++ str ".tsv" = dest ++ str ".phn" :=
    extNe dest dest ".tsv" ".phn" (by decide) (by decide) (by decide)
  have nWP : ¬ dest ++ str ".wrd" = dest ++ str ".phn" :=
    extNe dest dest ".wrd" ".phn" (by decide) (by decide) (by decide)
  have nNP : ¬ dest ++ str ".npy" = dest ++ str ".phn" :=
    extNe dest dest ".npy" ".phn" (by decide) (by decide) (by decide)
  cases hW : lookupFS fs (B ++ str ".wrd") with
  | some dW =>
    have e1 : lookupFS (setFS fs (dest ++ str ".tsv") dT) (B ++ str ".wrd") =
        some dW := by
      rw [lookupFS_setFS_ne _ _ _ _ nTsW]; exact hW
    have c1 : fsExists (setFS fs (dest ++ str ".tsv") dT) (B ++ str ".wrd") =
        true := by
      unfold fsExists; rw [e1]; rfl
    cases hP : lookupFS fs (B ++ str ".phn") with
    | some dP =>
      have e2 : lookupFS (setFS (setFS fs (dest ++ str ".tsv") dT)
          (dest ++ str ".wrd") dW) (B ++ str ".phn") = some dP := by
        rw [lookupFS_setFS_ne _ _ _ _ nWsP, lookupFS_setFS_ne _ _ _ _ nTsP]
        exact hP
      have c2 : fsExists (setFS (setFS fs (dest ++ str ".tsv") dT)
          (dest ++ str ".wrd") dW) (B ++ str ".phn") = true := by
        unfold fsExists; rw [e2]; rfl
      have hrun : create_files fs data split dest =
          .ok (if fsExists (setFS (setFS (setFS fs (dest ++ str ".tsv") dT)
                  (dest ++ str ".wrd") dW) (dest ++ str ".phn") dP)
                  (dest ++ str ".npy") then
                 removeFS (setFS (setFS (setFS fs (dest ++ str ".tsv") dT)
                   (dest ++ str ".wrd") dW) (dest ++ str ".phn") dP)
                   (dest ++ str ".npy")
               else
                 setFS (setFS (setFS fs (dest ++ str ".tsv") dT)
                   (dest ++ str ".wrd") dW) (dest ++ str ".phn") dP) := by
        simp only [create_files]
        rw [← hB, copyfile_ok fs _ _ dT neT hsrc, exceptBindOk, if_pos c1,
            copyfile_ok _ _ _ dW neW e1, exceptBindOk, if_pos c2,
            copyfile_ok _ _ _ dP neP e2, exceptBindOk, exceptPure]
      refine ⟨_, hrun, ?_, ?_, ?_, ?_, ?_, ?_, ?_⟩
      · exact lookupFS_removeIfExists _ _
      · rw [lookupFS_removeIfExists_ne _ _ _ nNsT,
            lookupFS_setFS_ne _ _ _ _ nPsT, lookupFS_setFS_ne _ _ _ _ nWsT,
            lookupFS_setFS_ne _ _ _ _ nTsT]
        exact hsrc
      · rw [lookupFS_removeIfExists_ne _ _ _ nNT,
            lookupFS_setFS_ne _ _ _ _ nPT, lookupFS_setFS_ne _ _ _ _ nWT,
            lookupFS_setFS_eq]
      · intro dW' hW'
        injection hW' with h4
        subst h4
        rw [lookupFS_removeIfExists_ne _ _ _ nNW,
            lookupFS_setFS_ne _ _ _ _ nPW, lookupFS_setFS_eq]
      · intro h0; simp at h0
      · intro dP' hP'
        injection hP' with h4
        subst h4
        rw [lookupFS_removeIfExists_ne _ _ _ nNP, lookupFS_setFS_eq]
      · intro h0; simp at h0
    | none =>
      have e2 : lookupFS (setFS (setFS fs (dest ++ str ".tsv") dT)
          (dest ++ str ".wrd") dW) (B ++ str ".phn") = none := by
        rw [lookupFS_setFS_ne _ _ _ _ nWsP, lookupFS_setFS_ne _ _ _ _ nTsP]
        exact hP
      have c2 : ¬ fsExists (setFS (setFS fs (dest ++ str ".tsv") dT)
          (dest ++ str ".wrd") dW) (B ++ str ".phn") = true := by
        unfold fsExists; rw [e2]; simp
      have hrun : create_files fs data split dest =
          .ok (if fsExists (setFS (setFS fs (dest ++ str ".tsv") dT)
                  (dest ++ str ".wrd") dW) (dest ++ str ".npy") then
                 removeFS (setFS (setFS fs (dest ++ str ".tsv") dT)
                   (dest ++ str ".wrd") dW) (dest ++ str ".npy")
               else
                 setFS (setFS fs (dest ++ str ".tsv") dT)
                   (dest ++ str ".wrd") dW) := by
        simp only [create_files]
        rw [← hB, copyfile_ok fs _ _ dT neT hsrc, exceptBindOk, if_pos c1,
            copyfile_ok _ _ _ dW neW e1, exceptBindOk, if_neg c2,
            exceptPure, exceptBindOk, exceptPure]
      refine ⟨_, hrun, ?_, ?_, ?_, ?_, ?_, ?_, ?_⟩
      · exact lookupFS_removeIfExists _ _
      · rw [lookupFS_removeIfExists_ne _ _ _ nNsT,
            lookupFS_setFS_ne _ _ _ _ nWsT, lookupFS_setFS_ne _ _ _ _ nTsT]
        exact hsrc
      · rw [lookupFS_removeIfExists_ne _ _ _ nNT,
            lookupFS_setFS_ne _ _ _ _ nWT, lookupFS_setFS_eq]
      · intro dW' hW'
        injection hW' with h4
        subst h4
        rw [lookupFS_removeIfExists_ne _ _ _ nNW, lookupFS_setFS_eq]
      · intro h0; simp at h0
      · intro dP' hP'; simp at hP'
      · intro h0
        rw [lookupFS_removeIfExists_ne _ _ _ nNP,
            lookupFS_setFS_ne _ _ _ _ nWP, lookupFS_setFS_ne _ _ _ _ nTP]
  | none =>
    have e1 : lookupFS (setFS fs (dest ++ str ".tsv") dT) (B ++ str ".wrd") =
        none := by
      rw [lookupFS_setFS_ne _ _ _ _ nTsW]; exact hW
    have c1 : ¬ fsExists (setFS fs (dest ++ str ".tsv") dT) (B ++ str ".wrd") =
        true := by
      unfold fsExists; rw [e1]; simp
    cases hP : lookupFS fs (B ++ str ".phn") with
    | some dP =>
      have e2 : lookupFS (setFS fs (dest ++ str ".tsv") dT) (B ++ str ".phn") =
          some dP := by
        rw [lookupFS_setFS_ne _ _ _ _ nTsP]; exact hP
      have c2 : fsExists (setFS fs (dest ++ str ".tsv") dT) (B ++ str ".phn") =
          true := by
        unfold fsExists; rw [e2]; rfl
      have hrun : create_files fs data split dest =
          .ok (if fsExists (setFS (setFS fs (dest ++ str ".tsv") dT)
                  (dest ++ str ".phn") dP) (dest ++ str ".npy") then
                 removeFS (setFS (setFS fs (dest ++ str ".tsv") dT)
                   (dest ++ str ".phn") dP) (dest ++ str ".npy")
               else
                 setFS (setFS fs (dest ++ str ".tsv") dT)
                   (dest ++ str ".phn") dP) := by
        simp only [create_files]
        rw [← hB, copyfile_ok fs _ _ dT neT hsrc, exceptBindOk, if_neg c1,
            exceptPure, exceptBindOk, if_pos c2,
            copyfile_ok _ _ _ dP neP e2, exceptBindOk, exceptPure]
      refine ⟨_, hrun, ?_, ?_, ?_, ?_, ?_, ?_, ?_⟩
      · exact lookupFS_removeIfExists _ _
      · rw [lookupFS_removeIfExists_ne _ _ _ nNsT,
            lookupFS_setFS_ne _ _ _ _ nPsT, lookupFS_setFS_ne _ _ _ _ nTsT]
        exact hsrc
      · rw [lookupFS_removeIfExists_ne _ _ _ nNT,
            lookupFS_setFS_ne _ _ _ _ nPT, lookupFS_setFS_eq]
      · intro dW' hW'; simp at hW'
      · intro h0
        rw [lookupFS_removeIfExists_ne _ _ _ nNW,
            lookupFS_setFS_ne _ _ _ _ nPW, lookupFS_setFS_ne _ _ _ _ nTW]
      · intro dP' hP'
        injection hP' with h4
        subst h4
        rw [lookupFS_removeIfExists_ne _ _ _ nNP, lookupFS_setFS_eq]
      · intro h0; simp at h0
    | none =>
      have e2 : lookupFS (setFS fs (dest ++ str ".tsv") dT) (B ++ str ".phn") =
          none := by
        rw [lookupFS_setFS_ne _ _ _ _ nTsP]; exact hP
      have c2 : ¬ fsExists (setFS fs (dest ++ str ".tsv") dT) (B ++ str ".phn") =
          true := by
        unfold fsExists; rw [e2]; simp
      have hrun : create_files fs data split dest =
          .ok (if fsExists (setFS fs (dest ++ str ".tsv") dT)
                  (dest ++ str ".npy") then
                 removeFS (setFS fs (dest ++ str ".tsv") dT)
                   (dest ++ str ".npy")
               else setFS fs (dest ++ str ".tsv") dT) := by
        simp only [create_files]
        rw [← hB, copyfile_ok fs _ _ dT neT hsrc, exceptBindOk, if_neg c1,
            exceptPure, exceptBindOk, if_neg c2, exceptPure, exceptBindOk,
            exceptPure]
      refine ⟨_, hrun, ?_, ?_, ?_, ?_, ?_, ?_, ?_⟩
      · exact lookupFS_removeIfExists _ _
      · rw [lookupFS_removeIfExists_ne _ _ _ nNsT,
            lookupFS_setFS_ne _ _ _ _ nTsT]
        exact hsrc
      · rw [lookupFS_removeIfExists_ne _ _ _ nNT, lookupFS_setFS_eq]
      · intro dW' hW'; simp at hW'
      · intro h0
        rw [lookupFS_removeIfExists_ne _ _ _ nNW,
            lookupFS_setFS_ne _ _ _ _ nTW]
      · intro dP' hP'; simp at hP'
      · intro h0
        rw [lookupFS_removeIfExists_ne _ _ _ nNP,
            lookupFS_setFS_ne _ _ _ _ nTP]

theorem lensVals_setFS_ne (fs : FS) (p q : Str) (d : FileData) (h : ¬ p = q) :
    lensVals (setFS fs p d) q = lensVals fs q := by
  unfold lensVals
  rw [lookupFS_setFS_ne _ _ _ _ h]

theorem npyRows_setFS_ne (fs : FS) (p q : Str) (d : FileData) (h : ¬ p = q) :
    npyRows (setFS fs p d) q = npyRows fs q := by
  unfold npyRows
  rw [lookupFS_setFS_ne _ _ _ _ h]

theorem fsWriteStep_lens (dest : Str) (fs : FS) (m : Matrix) :
    lensVals (fsWriteStep dest fs m) (dest ++ str ".lengths") =
      lensVals fs (dest ++ str ".lengths") ++ [m.length] := by
  have nNL : ¬ dest ++ str ".npy" = dest ++ str ".lengths" :=
    extNe dest dest ".npy" ".lengths" (by decide) (by decide) (by decide)
  have base : lensVals (appendLen fs (dest ++ str ".lengths") m.length)
      (dest ++ str ".lengths") = lensVals fs (dest ++ str ".lengths") ++ [m.length] := by
    unfold appendLen lensVals
    rw [lookupFS_setFS_eq]
  unfold fsWriteStep
  by_cases h : 0 < m.length
  · rw [if_pos h]
    unfold npyAppend
    rw [lensVals_setFS_ne _ _ _ _ nNL, base]
  · rw [if_neg h, base]

theorem fsWriteStep_npy (dest : Str) (fs : FS) (m : Matrix) :
    npyRows (fsWriteStep dest fs m) (dest ++ str ".npy") =
      npyRows fs (dest ++ str ".npy") ++ m := by
  have nLN : ¬ dest ++ str ".lengths" = dest ++ str ".npy" :=
    extNe dest dest ".lengths" ".npy" (by decide) (by decide) (by decide)
  have base : npyRows (appendLen fs (dest ++ str ".lengths") m.length)
      (dest ++ str ".npy") = npyRows fs (dest ++ str ".npy") := by
    unfold appendLen
    rw [npyRows_setFS_ne _ _ _ _ nLN]
  have eqN : ∀ (g : FS) (r : List Row),
      npyRows (setFS g (dest ++ str ".npy") (FileData.npyF r))
        (dest ++ str ".npy") = r := by
    intro g r
    unfold npyRows
    rw [lookupFS_setFS_eq]
  unfold fsWriteStep
  by_cases h : 0 < m.length
  · rw [if_pos h]
    unfold npyAppend
    rw [eqN, base]
  · have hm : m = [] := List.length_eq_zero.mp (Nat.eq_zero_of_not_pos h)
    rw [if_neg h, base, hm, List.append_nil]

/-- The loop of `main` appends one integer per file to the `.lengths` file,
in input order, and appends exactly the non-empty matrices' rows to the
`.npy` array, in input order. -/
theorem loop_spec (dest : Str) (embed : Str → Matrix) (files : List Str)
    (fs : FS) :
    lensVals (files.foldl (fun a f => fsWriteStep dest a (embed f)) fs)
        (dest ++ str ".lengths") =
      lensVals fs (dest ++ str ".lengths") ++
        files.map (fun f => (embed f).length) ∧
    npyRows (files.foldl (fun a f => fsWriteStep dest a (embed f)) fs)
        (dest ++ str ".npy") =
      npyRows fs (dest ++ str ".npy") ++ (files.map embed).flatten := by
  induction files generalizing fs with
  | nil => simp
  | cons f rest ih =>
    rcases ih (fsWriteStep dest fs (embed f)) with ⟨ih1, ih2⟩
    constructor
    · simp only [List.foldl_cons, List.map_cons]
      rw [ih1, fsWriteStep_lens]
      simp
    · simp only [List.foldl_cons, List.map_cons, List.flatten_cons]
      rw [ih2, fsWriteStep_npy]
      simp

/-- Characterization of a successful full run: it succeeds when the split
manifest exists in the data directory and the data and output stems differ,
the final `.lengths` file holds one row count per resolved file in input
order, and the final `.npy` array holds exactly this run's rows. -/
theorem extractRun_ok (fs : FS) (data split saveDir : Str)
    (embed : Str → Matrix) (content : Str)
    (hsrc : lookupFS fs (pyJoin data split ++ str ".tsv") =
      some (FileData.textF content))
    (hne : pyJoin data split ≠ pyJoin saveDir split) :
    ∃ fs', extractRun fs data split saveDir embed = .ok fs' ∧
      lensVals fs' (pyJoin saveDir split ++ str ".lengths") =
        (resolveManifest content).1.map (fun f => (embed f).length) ∧
      npyRows fs' (pyJoin saveDir split ++ str ".npy") =
        ((resolveManifest content).1.map embed).flatten := by
  obtain ⟨fs1, hrun, hnpy, hkeep, _⟩ :=
    create_files_spec fs data split (pyJoin saveDir split) _ hsrc hne
  have nLN : ¬ pyJoin saveDir split ++ str ".lengths" =
      pyJoin saveDir split ++ str ".npy" :=
    extNe _ _ ".lengths" ".npy" (by decide) (by decide) (by decide)
  have hrun2 : extractRun fs data split saveDir embed =
      .ok ((resolveManifest content).1.foldl
        (fun a f => fsWriteStep (pyJoin saveDir split) a (embed f))
        (setFS fs1 (pyJoin saveDir split ++ str ".lengths")
          (FileData.lensF []))) := by
    simp only [extractRun]
    rw [hrun, exceptBindOk, hkeep]
    rfl
  refine ⟨_, hrun2, ?_, ?_⟩
  · rw [(loop_spec (pyJoin saveDir split) embed (resolveManifest content).1
        (setFS fs1 (pyJoin saveDir split ++ str ".lengths")
          (FileData.lensF []))).1]
    have h0 : lensVals (setFS fs1 (pyJoin saveDir split ++ str ".lengths")
        (FileData.lensF [])) (pyJoin saveDir split ++ str ".lengths") = [] := by
      unfold lensVals
      rw [lookupFS_setFS_eq]
    rw [h0, List.nil_append]
  · rw [(loop_spec (pyJoin saveDir split) embed (resolveManifest content).1
        (setFS fs1 (pyJoin saveDir split ++ str ".lengths")
          (FileData.lensF []))).2]
    have h0 : npyRows (setFS fs1 (pyJoin saveDir split ++ str ".lengths")
        (FileData.lensF [])) (pyJoin saveDir split ++ str ".npy") = [] := by
      rw [npyRows_setFS_ne _ _ _ _ nLN]
      unfold npyRows
      rw [hnpy]
    rw [h0, List.nil_append]

/-! ### Concrete run used by the filesystem-level witnesses -/

def demoData : Str := str "/d"

def demoSplit : Str := str "train"

def demoSave : Str := str "/s"

def demoContent : Str := str "r\na.wav\nb.wav"

def demoEmbed : Str → Matrix := fun f =>
  if f = str "r/a.wav" then List.replicate 5 [(1 : Int)]
  else List.replicate 3 [(2 : Int)]

/-- Starting filesystem holding the split manifest and a stale 100-row
Feature Array from a previous run. -/
def demoFS : FS :=
  [(str "/d/train.tsv", FileData.textF demoContent),
   (str "/s/train.npy", FileData.npyF (List.replicate 100 [(0 : Int)]))]

def demoCreate : FS :=
  (create_files demoFS demoData demoSplit (pyJoin demoSave demoSplit)).toOption.getD []

def demoResult : FS :=
  (extractRun demoFS demoData demoSplit demoSave demoEmbed).toOption.getD []

/-- C4: any pre-existing Feature Array at `<save-dir>/<split>.npy` is deleted
by `create_files` before writing begins, and a completed run leaves exactly
that run's rows — never rows of a prior run. -/
theorem claim_C4_overwrite (fs : FS) (data split saveDir : Str)
    (embed : Str → Matrix) (content : Str) (fs1 fs' : FS)
    (hsrc : lookupFS fs (pyJoin data split ++ str ".tsv") =
      some (FileData.textF content))
    (hne : pyJoin data split ≠ pyJoin saveDir split) :
    (create_files fs data split (pyJoin saveDir split) = .ok fs1 →
      lookupFS fs1 (pyJoin saveDir split ++ str ".npy") = none) ∧
    (extractRun fs data split saveDir embed = .ok fs' →
      npyRows fs' (pyJoin saveDir split ++ str ".npy") =
        ((resolveManifest content).1.map embed).flatten) := by
  obtain ⟨g1, hg1, hnpy, _⟩ :=
    create_files_spec fs data split (pyJoin saveDir split) _ hsrc hne
  obtain ⟨g', hg', _, hrows⟩ :=
    extractRun_ok fs data split saveDir embed content hsrc hne
  constructor
  · intro h
    rw [hg1] at h
    injection h with he
    subst he
    exact hnpy
  · intro h
    rw [hg'] at h
    injection h with he
    subst he
    exact hrows

/-- Scenario of C4: a stale 100-row array, then a run producing 5 and 3 rows,
leaves exactly 8 rows. -/
theorem claim_C4_overwrite_witness :
    lookupFS demoCreate (pyJoin demoSave demoSplit ++ str ".npy") = none ∧
    npyRows demoResult (pyJoin demoSave demoSplit ++ str ".npy") =
      List.replicate 5 [(1 : Int)] ++ List.replicate 3 [(2 : Int)] :=
  ⟨(claim_C4_overwrite demoFS demoData demoSplit demoSave demoEmbed demoContent
      demoCreate demoResult (by decide) (by decide)).1 (by rfl),
   ((claim_C4_overwrite demoFS demoData demoSplit demoSave demoEmbed demoContent
      demoCreate demoResult (by decide) (by decide)).2 (by rfl)).trans
     (by decide)⟩

/-- C5: after a completed run on a non-empty split manifest, the Lengths
Manifest holds one line per file entry, in input order (including entries
with empty embeddings), so its line count equals the resolver's entry
count. -/
theorem claim_C5_lengths_count (fs : FS) (data split saveDir : Str)
    (embed : Str → Matrix) (content : Str) (fs' : FS)
    (hsrc : lookupFS fs (pyJoin data split ++ str ".tsv") =
      some (FileData.textF content))
    (hne : pyJoin data split ≠ pyJoin saveDir split)
    (hnonempty : (resolveManifest content).1 ≠ [])
    (hrun : extractRun fs data split saveDir embed = .ok fs') :
    lensVals fs' (pyJoin saveDir split ++ str ".lengths") =
      (resolveManifest content).1.map (fun f => (embed f).length) ∧
    (lensVals fs' (pyJoin saveDir split ++ str ".lengths")).length =
      (resolveManifest content).2 := by
  obtain ⟨g', hg', hlens, _⟩ :=
    extractRun_ok fs data split saveDir embed content hsrc hne
  rw [hg'] at hrun
  injection hrun with he
  subst he
  refine ⟨hlens, ?_⟩
  rw [hlens, List.length_map]
  rfl

theorem claim_C5_lengths_count_witness :
    lensVals demoResult (pyJoin demoSave demoSplit ++ str ".lengths") =
      [5, 3] ∧
    (lensVals demoResult (pyJoin demoSave demoSplit ++ str ".lengths")).length
      = 2 :=
  ⟨((claim_C5_lengths_count demoFS demoData demoSplit demoSave demoEmbed
      demoContent demoResult (by decide) (by decide) (by decide)
      (by rfl)).1).trans (by decide),
   ((claim_C5_lengths_count demoFS demoData demoSplit demoSave demoEmbed
      demoContent demoResult (by decide) (by decide) (by decide)
      (by rfl)).2).trans (by decide)⟩

/-- C6: `create_files` copies `<split>.tsv` unconditionally to the output
directory; it copies `<split>.wrd` and `<split>.phn` exactly when they exist
at the source; a missing auxiliary file does not abort the run (the call
still succeeds). -/
theorem claim_C6_aux_copies (fs : FS) (data split dest : Str)
    (dT dW dP : FileData) (fs1 : FS)
    (hsrc : lookupFS fs (pyJoin data split ++ str ".tsv") = some dT)
    (hne : pyJoin data split ≠ dest) :
    (create_files fs data split dest).isOk = true ∧
    (create_files fs data split dest = .ok fs1 →
      lookupFS fs1 (dest ++ str ".tsv") = some dT ∧
      (lookupFS fs (pyJoin data split ++ str ".wrd") = some dW →
        lookupFS fs1 (dest ++ str ".wrd") = some dW) ∧
      (lookupFS fs (pyJoin data split ++ str ".wrd") = none →
        lookupFS fs1 (dest ++ str ".wrd") = lookupFS fs (dest ++ str ".wrd")) ∧
      (lookupFS fs (pyJoin data split ++ str ".phn") = some dP →
        lookupFS fs1 (dest ++ str ".phn") = some dP) ∧
      (lookupFS fs (pyJoin data split ++ str ".phn") = none →
        lookupFS fs1 (dest ++ str ".phn") = lookupFS fs (dest ++ str ".phn"))) := by
  obtain ⟨g1, hg1, _, _, hdT, hw1, hw0, hp1, hp0⟩ :=
    create_files_spec fs data split dest dT hsrc hne
  constructor
  · rw [hg1]
    rfl
  · intro h
    rw [hg1] at h
    injection h with he
    subst he
    exact ⟨hdT, fun hw => hw1 _ hw, hw0, fun hp => hp1 _ hp, hp0⟩

/-- Starting filesystem for the C6 witness: `.wrd` present, `.phn` absent. -/
def demoFS6 : FS :=
  [(str "/d/train.tsv", FileData.textF demoContent),
   (str "/d/train.wrd", FileData.textF (str "w one")),
   (str "/s/train.npy", FileData.npyF [[0]])]

def demoCreate6 : FS :=
  (create_files demoFS6 demoData demoSplit (pyJoin demoSave demoSplit)).toOption.getD []

theorem claim_C6_aux_copies_witness :
    (create_files demoFS6 demoData demoSplit (pyJoin demoSave demoSplit)).isOk
      = true ∧
    lookupFS demoCreate6 (pyJoin demoSave demoSplit ++ str ".wrd") =
      some (FileData.textF (str "w one")) :=
  ⟨(claim_C6_aux_copies demoFS6 demoData demoSplit (pyJoin demoSave demoSplit)
      (FileData.textF demoContent) (FileData.textF (str "w one"))
      (FileData.textF []) demoCreate6 (by decide) (by decide)).1,
   (((claim_C6_aux_copies demoFS6 demoData demoSplit (pyJoin demoSave demoSplit)
      (FileData.textF demoContent) (FileData.textF (str "w one"))
      (FileData.textF []) demoCreate6 (by decide) (by decide)).2
      (by rfl)).2.1 (by decide))⟩

/-! ### Fine-grained event trace of the writer loop (C10)

Each loop iteration performs its two writes in program order: first
`print(len(w2v_feats), file=l_f)`, then (only for a non-empty matrix)
`npaa.append(...)`.  The trace lists these atomic writes; a prefix of the
trace is the observable state at an arbitrary intermediate point, including
the point just after a length line when the following append has not yet
happened (e.g. because it raised). -/

/-- An atomic write of the loop: a length line or a row-block append. -/
inductive Event where
  | len (n : Nat)
  | app (m : Matrix)
deriving DecidableEq

/-- The write events of one iteration, in program order. -/
def fileEvents (m : Matrix) : List Event :=
  Event.len m.length :: (if 0 < m.length then [Event.app m] else [])

/-- The write events of the whole run, in input order. -/
def runTrace (ms : List Matrix) : List Event :=
  (ms.map fileEvents).flatten

def applyEvent (st : WState) : Event → WState
  | Event.len n => { st with lengths := st.lengths ++ [n] }
  | Event.app m => { st with array := st.array ++ m }

/-- The output-resource state after a list of events. -/
def replay (p : List Event) : WState :=
  p.foldl applyEvent ⟨[], []⟩

/-- How many per-file segments are fully present, reading the leading
complete groups of the event list: a `0` length line is a complete (empty)
segment by itself; a positive length line is complete together with the
append that follows it. -/
def committedCount : List Event → Nat
  | [] => 0
  | Event.len 0 :: rest => committedCount rest + 1
  | Event.len (_ + 1) :: Event.app _ :: rest => committedCount rest + 1
  | _ => 0

theorem foldl_applyEvent_trace (ms : List Matrix) (st : WState) :
    (runTrace ms).foldl applyEvent st =
      ⟨st.lengths ++ ms.map List.length, st.array ++ ms.flatten⟩ := by
  induction ms generalizing st with
  | nil => simp [runTrace]
  | cons m rest ih =>
    have hsplit : runTrace (m :: rest) = fileEvents m ++ runTrace rest := by
      simp [runTrace]
    rw [hsplit, List.foldl_append]
    by_cases hm : 0 < m.length
    · have hfe : fileEvents m = [Event.len m.length, Event.app m] := by
        unfold fileEvents; rw [if_pos hm]
      rw [hfe]
      simp only [List.foldl_cons, List.foldl_nil, applyEvent]
      rw [ih]
      simp
    · have hm0 : m = [] :=
        List.length_eq_zero.mp (Nat.eq_zero_of_not_pos hm)
      have hfe : fileEvents m = [Event.len m.length] := by
        unfold fileEvents; rw [if_neg hm]
      rw [hfe]
      simp only [List.foldl_cons, List.foldl_nil, applyEvent]
      rw [ih]
      simp [hm0]

theorem replay_trace (ms : List Matrix) :
    replay (runTrace ms) = ⟨ms.map List.length, ms.flatten⟩ := by
  unfold replay
  rw [foldl_applyEvent_trace]
  simp

theorem replay_trace_pending (ms : List Matrix) (n : Nat) :
    replay (runTrace ms ++ [Event.len n]) =
      ⟨ms.map List.length ++ [n], ms.flatten⟩ := by
  unfold replay
  rw [List.foldl_append, foldl_applyEvent_trace]
  simp [applyEvent]

theorem committedCount_trace (ms : List Matrix) :
    committedCount (runTrace ms) = ms.length := by
  induction ms with
  | nil => rfl
  | cons m rest ih =>
    have hsplit : runTrace (m :: rest) = fileEvents m ++ runTrace rest := by
      simp [runTrace]
    by_cases hm : 0 < m.length
    · obtain ⟨n, hn⟩ : ∃ n, m.length = n + 1 :=
        ⟨m.length - 1, (Nat.succ_pred_eq_of_pos hm).symm⟩
      have hfe : fileEvents m = [Event.len (n + 1), Event.app m] := by
        unfold fileEvents; rw [if_pos hm, hn]
      rw [hsplit, hfe]
      show committedCount (runTrace rest) + 1 = (m :: rest).length
      rw [ih, List.length_cons]
    · have h0 : m.length = 0 := Nat.eq_zero_of_not_pos hm
      have hfe : fileEvents m = [Event.len 0] := by
        unfold fileEvents; rw [if_neg hm, h0]
      rw [hsplit, hfe]
      show committedCount (runTrace rest) + 1 = (m :: rest).length
      rw [ih, List.length_cons]

theorem committedCount_trace_pending (ms : List Matrix) (n : Nat) :
    committedCount (runTrace ms ++ [Event.len (n + 1)]) = ms.length := by
  induction ms with
  | nil => rfl
  | cons m rest ih =>
    have hsplit : runTrace (m :: rest) = fileEvents m ++ runTrace rest := by
      simp [runTrace]
    rw [hsplit, List.append_assoc]
    by_cases hm : 0 < m.length
    · obtain ⟨j, hj⟩ : ∃ j, m.length = j + 1 :=
        ⟨m.length - 1, (Nat.succ_pred_eq_of_pos hm).symm⟩
      have hfe : fileEvents m = [Event.len (j + 1), Event.app m] := by
        unfold fileEvents; rw [if_pos hm, hj]
      rw [hfe]
      show committedCount (runTrace rest ++ [Event.len (n + 1)]) + 1 =
        (m :: rest).length
      rw [ih, List.length_cons]
    · have h0 : m.length = 0 := Nat.eq_zero_of_not_pos hm
      have hfe : fileEvents m = [Event.len 0] := by
        unfold fileEvents; rw [if_neg hm, h0]
      rw [hfe]
      show committedCount (runTrace rest ++ [Event.len (n + 1)]) + 1 =
        (m :: rest).length
      rw [ih, List.length_cons]

/-- Every prefix of the run trace stops either exactly at a file boundary
(after `k` whole files) or exactly between a positive length line and its
append. -/
theorem prefix_shape (ms : List Matrix) (p : List Event)
    (h : p <+: runTrace ms) :
    (∃ k, k ≤ ms.length ∧ p = runTrace (ms.take k)) ∨
    (∃ k m rest, ms.drop k = m :: rest ∧ 0 < m.length ∧
      p = runTrace (ms.take k) ++ [Event.len m.length]) := by
  induction ms generalizing p with
  | nil =>
    left
    refine ⟨0, Nat.le_refl 0, ?_⟩
    have hp : p = [] := List.prefix_nil.mp (by simpa [runTrace] using h)
    simp [hp, runTrace]
  | cons m rest ih =>
    have hsplit : runTrace (m :: rest) = fileEvents m ++ runTrace rest := by
      simp [runTrace]
    rw [hsplit] at h
    by_cases hm : 0 < m.length
    · have hfe : fileEvents m = [Event.len m.length, Event.app m] := by
        unfold fileEvents; rw [if_pos hm]
      rw [hfe] at h
      cases p with
      | nil => exact Or.inl ⟨0, Nat.zero_le _, by simp [runTrace]⟩
      | cons e p' =>
        obtain ⟨he, h'⟩ := List.cons_prefix_cons.mp h
        subst he
        cases p' with
        | nil => exact Or.inr ⟨0, m, rest, rfl, hm, by simp [runTrace]⟩
        | cons e' p'' =>
          obtain ⟨he', h''⟩ := List.cons_prefix_cons.mp h'
          subst he'
          rcases ih p'' h'' with ⟨k, hk, hp⟩ | ⟨k, m', rest', hd, hm', hp⟩
          · left
            refine ⟨k + 1, Nat.succ_le_succ hk, ?_⟩
            subst hp
            simp [runTrace, List.take_succ_cons, hfe]
          · right
            refine ⟨k + 1, m', rest', by simpa using hd, hm', ?_⟩
            subst hp
            simp [runTrace, List.take_succ_cons, hfe]
    · have h0 : m.length = 0 := Nat.eq_zero_of_not_pos hm
      have hfe : fileEvents m = [Event.len 0] := by
        unfold fileEvents; rw [if_neg hm, h0]
      rw [hfe] at h
      cases p with
      | nil => exact Or.inl ⟨0, Nat.zero_le _, by simp [runTrace]⟩
      | cons e p' =>
        obtain ⟨he, h'⟩ := List.cons_prefix_cons.mp h
        subst he
        rcases ih p' h' with ⟨k, hk, hp⟩ | ⟨k, m', rest', hd, hm', hp⟩
        · left
          refine ⟨k + 1, Nat.succ_le_succ hk, ?_⟩
          subst hp
          simp [runTrace, List.take_succ_cons, hfe]
        · right
          refine ⟨k + 1, m', rest', by simpa using hd, hm', ?_⟩
          subst hp
          simp [runTrace, List.take_succ_cons, hfe]

/-- C10: the length line of each file is written strictly before that file's
rows: replaying any prefix of the run trace shows the lengths line count is
equal to, or exactly one greater than, the number of fully present per-file
segments — never smaller; the lines present are exactly the row counts of
the first files in input order, and the array rows are exactly those of the
committed non-empty matrices. -/
theorem claim_C10_line_before_append (ms : List Matrix) (p : List Event)
    (h : p <+: runTrace ms) :
    ((replay p).lengths.length = committedCount p ∨
     (replay p).lengths.length = committedCount p + 1) ∧
    committedCount p ≤ (replay p).lengths.length ∧
    (replay p).lengths =
      (ms.take (replay p).lengths.length).map List.length ∧
    (replay p).array =
      ((ms.take (committedCount p)).filter (fun m => 0 < m.length)).flatten := by
  rcases prefix_shape ms p h with ⟨k, hk, hp⟩ | ⟨k, m, rest, hd, hm, hp⟩
  · subst hp
    have hlenTake : (ms.take k).length = k := by
      rw [List.length_take]; exact Nat.min_eq_left hk
    rw [replay_trace, committedCount_trace]
    refine ⟨Or.inl ?_, ?_, ?_, ?_⟩
    · simp
    · simp
    · show (ms.take k).map List.length =
        (ms.take ((ms.take k).map List.length).length).map List.length
      rw [List.length_map, hlenTake]
    · show (ms.take k).flatten =
        ((ms.take (ms.take k).length).filter (fun m => 0 < m.length)).flatten
      rw [hlenTake, flatten_filter_pos]
  · subst hp
    obtain ⟨j, hj⟩ : ∃ j, m.length = j + 1 :=
      ⟨m.length - 1, (Nat.succ_pred_eq_of_pos hm).symm⟩
    have hklt : k < ms.length := by
      by_contra hc
      push_neg at hc
      rw [List.drop_eq_nil_of_le hc] at hd
      cases hd
    have hk : k ≤ ms.length := Nat.le_of_lt hklt
    have hlenTake : (ms.take k).length = k := by
      rw [List.length_take]; exact Nat.min_eq_left hk
    have hcc : committedCount (runTrace (ms.take k) ++ [Event.len m.length]) =
        k := by
      rw [hj, committedCount_trace_pending, hlenTake]
    have htk : ms.take (k + 1) = ms.take k ++ [m] := by
      conv_lhs => rw [← List.take_append_drop k ms]
      rw [hd, List.take_append_eq_append_take,
          List.take_of_length_le (by rw [hlenTake]; exact Nat.le_succ k),
          hlenTake]
      simp
    rw [replay_trace_pending, hcc]
    refine ⟨Or.inr ?_, ?_, ?_, ?_⟩
    · show ((ms.take k).map List.length ++ [m.length]).length = k + 1
      rw [List.length_append, List.length_map, hlenTake]
      rfl
    · show k ≤ ((ms.take k).map List.length ++ [m.length]).length
      rw [List.length_append, List.length_map, hlenTake]
      exact Nat.le_succ k
    · show (ms.take k).map List.length ++ [m.length] =
        (ms.take ((ms.take k).map List.length ++ [m.length]).length).map
          List.length
      rw [List.length_append, List.length_map, hlenTake]
      show _ = (ms.take (k + 1)).map List.length
      rw [htk]
      simp
    · show (ms.take k).flatten =
        ((ms.take k).filter (fun m => 0 < m.length)).flatten
      rw [flatten_filter_pos]

/-- Witness: the run on a 1-row matrix followed by an empty matrix, observed
right after the first length line with its append still pending. -/
theorem claim_C10_line_before_append_witness :
    ((replay [Event.len 1]).lengths.length = committedCount [Event.len 1] ∨
     (replay [Event.len 1]).lengths.length =
       committedCount [Event.len 1] + 1) ∧
    committedCount [Event.len 1] ≤ (replay [Event.len 1]).lengths.length ∧
    (replay [Event.len 1]).lengths =
      (([[[1]], []] : List Matrix).take
        (replay [Event.len 1]).lengths.length).map List.length ∧
    (replay [Event.len 1]).array =
      ((([[[1]], []] : List Matrix).take
        (committedCount [Event.len 1])).filter
          (fun m => 0 < m.length)).flatten :=
  claim_C10_line_before_append [[[1]], []] [Event.len 1]
    ⟨[Event.app [[1]], Event.len 0], by decide⟩

/-! ### Resource acquisition and release (C8)

In `main` the Lengths Manifest is opened inside `with open(...) as l_f:`, so
it is flushed and closed on both the normal and the exceptional exit of the
loop.  The `NpyAppendArray` handle `npaa` is created in `create_files`
without a context manager and `main` never calls any close or flush on it on
any path; its release is left to the external library's finalization. -/

/-- Output-resource contents together with a close flag per resource. -/
structure ResState where
  lengths : List Nat
  array : List Row
  lenClosed : Bool
  npyClosed : Bool
deriving DecidableEq

/-- One loop iteration (writes only; the loop body releases nothing). -/
def resStep (st : ResState) (m : Matrix) : ResState :=
  { st with
    lengths := st.lengths ++ [m.length],
    array := if 0 < m.length then st.array ++ m else st.array }

/-- The loop body over the embedding results, stopping at the first raised
error and propagating it. -/
def runBody :
    ResState → List (Except String Matrix) → ResState × Option String
  | st, [] => (st, none)
  | st, Except.error e :: _ => (st, some e)
  | st, Except.ok m :: rest => runBody (resStep st m) rest

/-- `main`'s run at resource granularity: the `with` block closes the
Lengths Manifest whether the body finished normally (`none`) or raised
(`some e`); no instruction of `main` closes the Feature Array handle. -/
def mainRun (embeds : List (Except String Matrix)) :
    ResState × Option String :=
  let start : ResState := ⟨[], [], false, false⟩
  let res := runBody start embeds
  ({ res.1 with lenClosed := true }, res.2)

theorem runBody_npyClosed (embeds : List (Except String Matrix))
    (st : ResState) : (runBody st embeds).1.npyClosed = st.npyClosed := by
  induction embeds generalizing st with
  | nil => rfl
  | cons e rest ih =>
    cases e with
    | error msg => rfl
    | ok m => exact ih (resStep st m)

/-- C8 as stated is false on the code: at an explicit input the run closes
the Lengths Manifest but leaves the Feature Array handle unclosed — on the
error exit path and even on the normal exit path. -/
theorem claim_C8_counterexample :
    (mainRun [Except.error "embed raised"]).2 = some "embed raised" ∧
    (mainRun [Except.error "embed raised"]).1.lenClosed = true ∧
    (mainRun [Except.error "embed raised"]).1.npyClosed = false ∧
    (mainRun [Except.ok [[1]]]).2 = none ∧
    (mainRun [Except.ok [[1]]]).1.npyClosed = false := by
  refine ⟨rfl, rfl, rfl, rfl, rfl⟩

/-- C8 amended: the Lengths Manifest is closed on every exit path of the
run, including paths where an embedding call raises; the Feature Array
handle is never explicitly flushed or closed by the program on any exit
path. -/
theorem claim_C8_close_semantics (embeds : List (Except String Matrix)) :
    (mainRun embeds).1.lenClosed = true ∧
    (mainRun embeds).1.npyClosed = false := by
  constructor
  · rfl
  · show (runBody ⟨[], [], false, false⟩ embeds).1.npyClosed = false
    rw [runBody_npyClosed]

/-! ### `read_audio` and `get_feats` (C7)

`sf.read` is the external audio decoder, modelled as an arbitrary function
from the file name to the PCM samples and the sample rate.  The Python
comparison `sr == 16e3` (int vs. float) holds exactly for `sr == 16000`, so
`assert sr == 16e3` raises `AssertionError` exactly when the rate differs
from 16000. -/

/-- `read_audio` (source lines 63–68). -/
def read_audio (sfread : Str → List Int × Nat) (fname : Str) :
    Except String (List Int) :=
  let wav := (sfread fname).1
  let sr := (sfread fname).2
  if sr = 16000 then .ok wav else .error "AssertionError"

/-- `get_feats` (source lines 70–81): read the audio first, then run the
model; the network forward pass is opaque, modelled by `model`. -/
def get_feats (sfread : Str → List Int × Nat) (model : List Int → Matrix)
    (loc : Str) : Except String Matrix :=
  match read_audio sfread loc with
  | .ok wav => .ok (model wav)
  | .error e => .error e

/-- C7: reading succeeds and returns the PCM samples iff the sample rate is
16000 Hz; otherwise the assertion raises, and `get_feats` fails with that
same error before any embedding is produced — its result does not depend on
the model at all. -/
theorem claim_C7_sample_rate (sfread : Str → List Int × Nat)
    (model model2 : List Int → Matrix) (fname : Str) :
    (read_audio sfread fname = .ok (sfread fname).1 ↔
      (sfread fname).2 = 16000) ∧
    ((sfread fname).2 = 16000 →
      get_feats sfread model fname = .ok (model (sfread fname).1)) ∧
    ((sfread fname).2 ≠ 16000 →
      read_audio sfread fname = .error "AssertionError" ∧
      get_feats sfread model fname = .error "AssertionError" ∧
      get_feats sfread model fname = get_feats sfread model2 fname) := by
  by_cases h : (sfread fname).2 = 16000
  · simp [read_audio, get_feats, h]
  · simp [read_audio, get_feats, h]

theorem claim_C7_sample_rate_witness :
    get_feats (fun x => ([3], 16000)) (fun w => [w]) (str "a.wav") =
      .ok [[3]] ∧
    read_audio (fun x => ([3], 44100)) (str "x.wav") =
      .error "AssertionError" :=
  ⟨(claim_C7_sample_rate (fun x => ([3], 16000)) (fun w => [w]) (fun w => [w])
      (str "a.wav")).2.1 (by decide),
   ((claim_C7_sample_rate (fun x => ([3], 44100)) (fun w => [w]) (fun w => [w])
      (str "x.wav")).2.2 (by decide)).1⟩

end Wav2VecFeatures
